import Mathlib

/-!
Verification of the identifier-synthesis and reconciliation core of the
cell-network reconciliation scripts (`test.py`, `test2.py`,
`parse_excel_access.py`).  The Python functions are shallowly embedded as
executable Lean definitions; machine integers appearing in the sources are
non-negative domain codes (MCC/MNC/LAC/CI), so they are modelled as `Nat`.
Python's text operations (`str.strip`, `str.upper`, `re.sub(r"\s+", "", ·)`,
`str.zfill`, `int(·)`, `int(float(·))`, `format(·, 'X')`, f-string padding)
are modelled character-by-character over `List Char`; the case mappings model
Python's behaviour on the ASCII range, which is the range the identifier
grammar produces.  Fallible Python code (an uncaught exception) is modelled
with `Option`: `none` means the call raises.
-/

/-! ## Character and string utilities -/

/-- Model of a whitespace character (`re`'s `\s`, `str.strip`'s default). -/
def isWs (c : Char) : Bool :=
  c.isWhitespace

/-- Model of `re.sub(r"\s+", "", s)`: delete every whitespace character. -/
def removeWsL (l : List Char) : List Char :=
  l.filter (fun c => !isWs c)

/-- String wrapper for `removeWsL`. -/
def removeWs (s : String) : String :=
  ⟨removeWsL s.data⟩

/-- Drop leading whitespace. -/
def dropWsL (l : List Char) : List Char :=
  l.dropWhile isWs

/-- Model of Python `str.strip()`: drop whitespace at both ends. -/
def pyStripL (l : List Char) : List Char :=
  ((dropWsL l).reverse.dropWhile isWs).reverse

/-- String wrapper for `pyStripL`. -/
def pyStrip (s : String) : String :=
  ⟨pyStripL s.data⟩

/-- Model of Python `str.upper()` on one character (ASCII range). -/
def upChar (c : Char) : Char :=
  if 97 ≤ c.toNat ∧ c.toNat ≤ 122 then Char.ofNat (c.toNat - 32) else c

/-- Model of Python `str.upper()`. -/
def upStr (s : String) : String :=
  ⟨s.data.map upChar⟩

/-- Model of Python `str.lower()` on one character (ASCII range). -/
def lowChar (c : Char) : Char :=
  if 65 ≤ c.toNat ∧ c.toNat ≤ 90 then Char.ofNat (c.toNat + 32) else c

/-- Model of Python `str.lower()`. -/
def lowStr (s : String) : String :=
  ⟨s.data.map lowChar⟩

/-- Model of Python `s.zfill(w)` on the sign-free strings of this domain:
left-pad with `'0'` up to length `w`, no change when already long enough. -/
def zFill (w : Nat) (s : String) : String :=
  if s.length < w then ⟨List.replicate (w - s.length) '0' ++ s.data⟩ else s

/-- `startsWithL a b`: `a` is a leading run of `b`. -/
def startsWithL : List Char → List Char → Bool
  | [], _ => true
  | _ :: _, [] => false
  | a :: as, b :: bs => a == b && startsWithL as bs

/-- Model of Python's `a in b` on strings: `a` occurs contiguously in `b`. -/
def subOfL : List Char → List Char → Bool
  | a, [] => a.isEmpty
  | a, b :: bs => startsWithL a (b :: bs) || subOfL a bs

/-- String wrapper for `subOfL`. -/
def subOf (a b : String) : Bool :=
  subOfL a.data b.data

/-- Model of `s.replace(",", ".")`. -/
def commaToDot (s : String) : String :=
  ⟨s.data.map (fun c => if c = ',' then '.' else c)⟩

/-! ## Positional numerals

`toBaseAux` renders a natural number in base `b` with an explicit fuel
argument (structural recursion, so the kernel can evaluate it); with fuel at
least the value itself the fuel never runs out.  Base 10 gives Python
`str(int)` / `f"{n:0kd}"` bodies, base 16 gives Python `format(n, 'X')`.
-/

/-- Digit characters `0`–`9`, `A`–`F` (as produced by Python's `'X'` format
and decimal formats). -/
def digitCh (m : Nat) : Char :=
  if m < 10 then Char.ofNat (48 + m) else Char.ofNat (65 + m - 10)

/-- Value of a digit character produced by `digitCh`. -/
def digitVal (c : Char) : Nat :=
  if c.isDigit then c.toNat - 48 else c.toNat - 55

/-- Fueled base-`b` rendering, most significant digit first. -/
def toBaseAux (b : Nat) : Nat → Nat → List Char
  | _, 0 => []
  | n, fuel + 1 => if n = 0 then [] else toBaseAux b (n / b) fuel ++ [digitCh (n % b)]

/-- Base-`b` rendering of `n` (canonical: `"0"` for zero, no leading zeros). -/
def toBase (b n : Nat) : String :=
  if n = 0 then "0" else ⟨toBaseAux b n n⟩

/-- Model of Python `str(n)` for a natural number. -/
def natToDec (n : Nat) : String :=
  toBase 10 n

/-- Model of Python `format(n, 'X')`: upper-case hex, no padding. -/
def natToHex (n : Nat) : String :=
  toBase 16 n

/-- Model of Python `f"{n:0{w}X}"`: upper-case hex, left-zero-padded. -/
def pyHexFmt (n w : Nat) : String :=
  zFill w (natToHex n)

/-- Read a digit list back in base `b`. -/
def fromBaseL (b : Nat) (l : List Char) : Nat :=
  l.foldl (fun a c => a * b + digitVal c) 0

/-- An upper-case hexadecimal digit character. -/
def isHexUp (c : Char) : Bool :=
  c.isDigit || (65 ≤ c.toNat && c.toNat ≤ 70)

/-- Independent semantics used to check the hex renderer: a non-empty string
of upper-case hex digits denotes a number. -/
def fromHexStr (s : String) : Option Nat :=
  if s.data ≠ [] ∧ s.data.all isHexUp then some (fromBaseL 16 s.data) else none

/-- Model of Python `int(str)` on the non-negative decimal strings of this
domain: surrounding whitespace allowed, then decimal digits only. -/
def pyIntOfStr (s : String) : Option Nat :=
  let t := pyStripL s.data
  if t ≠ [] ∧ t.all Char.isDigit then some (fromBaseL 10 t) else none

/-- Split a character list at the first `'.'`. -/
def splitDot : List Char → List Char × Option (List Char)
  | [] => ([], none)
  | c :: cs =>
    if c = '.' then ([], some cs)
    else
      let p := splitDot cs
      (c :: p.1, p.2)

/-- Model of Python `int(float(s))` on the plain decimal forms of this domain
(`"d+"`, `"d+.d*"`, `".d+"`; truncation toward zero): the integer part. -/
def pyFloatTrunc (s : String) : Option Nat :=
  let t := pyStripL s.data
  match splitDot t with
  | (a, none) => if a ≠ [] ∧ a.all Char.isDigit then some (fromBaseL 10 a) else none
  | (a, some frac) =>
    if (a ≠ [] ∨ frac ≠ []) ∧ a.all Char.isDigit ∧ frac.all Char.isDigit then
      some (fromBaseL 10 a)
    else none

/-! ## Raw field values

A scalar arriving from the Access table or a spreadsheet cell: absent
(`NaN`/`None`, which `pd.isna` detects), an integer (the numeric domain codes
are non-negative, so `Nat`), or text. -/

inductive RawValue where
  | null
  | int (n : Nat)
  | text (s : String)
deriving DecidableEq

/-- Model of `pd.isna(val)`. -/
def isNA : RawValue → Bool
  | .null => true
  | _ => false

/-- Model of Python `str(val)` / pandas `astype(str)` on a raw value
(`str(float('nan')) = "nan"`). -/
def pyStr : RawValue → String
  | .null => "nan"
  | .int n => natToDec n
  | .text s => s

/-! ## `test2.py` -/

/-- `test2.py` `_digits`: `""` for absent values, otherwise
`re.sub(r"\s+", "", str(s)).strip()` (after removing every whitespace
character the trailing `strip` does nothing, and `str` of an integer has no
whitespace). -/
def pyDigits (v : RawValue) : String :=
  match v with
  | .null => ""
  | .int n => natToDec n
  | .text s => removeWs s

/-- `test2.py` `_to_hex`: `""` for absent or blank input; otherwise
`int(val)`, retried as `int(float(str(val).replace(",", ".")))`; the second
failure is uncaught (`none` = the call raises); the result is rendered with
`f"{ival:0{width}X}"`. -/
def toHex2 (v : RawValue) (w : Nat) : Option String :=
  match v with
  | .null => some ""
  | .int n => some (pyHexFmt n w)
  | .text s =>
    if pyStrip s = "" then some ""
    else
      match pyIntOfStr s with
      | some n => some (pyHexFmt n w)
      | none => (pyFloatTrunc (commaToDot s)).map (fun n => pyHexFmt n w)

/-- The MNC branch of `test2.py` `build_id` (lines 57–72), applied to the
already-normalized digit string `mnc_raw`: fixed modes `"2"`/`"3"` zero-fill,
any other mode is `auto` (`f"{mnc_i:02d}"` when the string parses below 100,
`f"{mnc_i:03d}"` otherwise, pass-through when it does not parse). -/
def mncSegment (mode : String) (raw : String) : String :=
  if mode = "2" then zFill 2 raw
  else if mode = "3" then zFill 3 raw
  else
    match pyIntOfStr raw with
    | some n => if n < 100 then zFill 2 (natToDec n) else zFill 3 (natToDec n)
    | none => raw

/-- `test2.py` `build_id`: `_digits(mcc).zfill(3)`, the MNC segment, the two
hex segments, concatenated and upper-cased; `none` when `_to_hex` raises. -/
def buildId2 (mcc mnc lac ci : RawValue) (mode : String) (lacW ciW : Nat) :
    Option String :=
  let mccS := zFill 3 (pyDigits mcc)
  let mncS := mncSegment mode (pyDigits mnc)
  match toHex2 lac lacW, toHex2 ci ciW with
  | some lacH, some ciH => some (upStr (mccS ++ mncS ++ lacH ++ ciH))
  | _, _ => none

/-- Model of `test2.py` `fetch_access_ids` lines 86–90: build an identifier
per row, keep the non-empty ones (`[s for s in ids if s]`); `none` when some
row raises. -/
def fetchIds (rows : List (RawValue × RawValue × RawValue × RawValue))
    (mode : String) (lacW ciW : Nat) : Option (List String) :=
  match rows with
  | [] => some []
  | (mcc, mnc, lac, ci) :: rest =>
    match buildId2 mcc mnc lac ci mode lacW ciW, fetchIds rest mode lacW ciW with
    | some s, some ids => some (if s = "" then ids else s :: ids)
    | _, _ => none

/-! ## `test.py` -/

/-- `test.py` `norm_digits`: absent values yield `""` before any padding;
numeric values render via `str(int(val))`, text via `str(val).strip()`; all
whitespace is removed; `min_width` pads on the left when the result is
shorter (Python's `if min_width:` treats `0` like `None`); `max_width` has no
effect (the source's branch is `pass`). -/
def normDigits (v : RawValue) (minWidth maxWidth : Option Nat) : String :=
  match v with
  | .null => ""
  | .int n =>
    let s := natToDec n
    match minWidth, maxWidth with
    | some w, _ => if 0 < w ∧ s.length < w then zFill w s else s
    | none, _ => s
  | .text t =>
    let s := removeWsL (pyStripL t.data)
    match minWidth, maxWidth with
    | some w, _ => if 0 < w ∧ s.length < w then zFill w ⟨s⟩ else ⟨s⟩
    | none, _ => (⟨s⟩ : String)

/-- `test.py` `to_hex`: `""` for absent input; otherwise `int(val)`, retried
as `int(float(val))` — no blank check and no comma replacement, and the retry
is uncaught on failure (`none` = the call raises); rendered with
`f"{ival:0{width}X}"`. -/
def toHex1 (v : RawValue) (w : Nat) : Option String :=
  match v with
  | .null => some ""
  | .int n => some (pyHexFmt n w)
  | .text s =>
    match pyIntOfStr s with
    | some n => some (pyHexFmt n w)
    | none => (pyFloatTrunc s).map (fun n => pyHexFmt n w)

/-- `test.py` `build_id`: MCC through `norm_digits` with
`min_width = max_width = mcc_width` when `mcc_width` is truthy; the same MNC
mode dispatch as `test2.py` (written inline in this variant); hex fields via
`to_hex`; concatenated and upper-cased. -/
def buildId1 (mcc mnc lac ci : RawValue) (mccWidth : Nat) (mode : String)
    (lacW ciW : Nat) : Option String :=
  let mccS :=
    if mccWidth ≠ 0 then normDigits mcc (some mccWidth) (some mccWidth)
    else normDigits mcc none none
  let raw := normDigits mnc none none
  let mncS :=
    if mode = "2" then zFill 2 raw
    else if mode = "3" then zFill 3 raw
    else
      match pyIntOfStr raw with
      | some n => if 100 ≤ n then zFill 3 (natToDec n) else zFill 2 (natToDec n)
      | none => raw
  match toHex1 lac lacW, toHex1 ci ciW with
  | some lacH, some ciH => some (upStr (mccS ++ mncS ++ lacH ++ ciH))
  | _, _ => none

/-! ## `parse_excel_access.py` -/

/-- `int(value)` as used by `dec_to_hex_str`: an absent value raises, text
parses as a decimal integer or raises. -/
def pyIntRaw : RawValue → Option Nat
  | .null => none
  | .int n => some n
  | .text s => pyIntOfStr s

/-- `parse_excel_access.py` `dec_to_hex_str`: `format(int(value), 'X')`,
zero-filled when a width is given. -/
def decToHexStr (v : RawValue) (w : Option Nat) : Option String :=
  (pyIntRaw v).map (fun n =>
    match w with
    | some width => zFill width (natToHex n)
    | none => natToHex n)

/-- One row of `parse_excel_access.py` `combine_dataframes` (lines 31–37):
`mcc`/`mnc` via `astype(str).str.zfill(width)`, `lac`/`ci` via
`dec_to_hex_str`, concatenated — no `auto` MNC mode, no upper-casing step,
no reconciliation diff in this variant. -/
def combineRow (mcc mnc lac ci : RawValue) (lacW ciW : Option Nat)
    (mccW mncW : Nat) : Option String :=
  match decToHexStr lac lacW, decToHexStr ci ciW with
  | some lacH, some ciH =>
    some (zFill mccW (pyStr mcc) ++ zFill mncW (pyStr mnc) ++ lacH ++ ciH)
  | _, _ => none

/-! ## Reconciliation (`test.py` lines 178–180, `test2.py` lines 163–165) -/

/-- `set1 = set(var1); [g for g in var2 if g not in set1]` — membership in
`set(var1)` is membership in `var1`. -/
def reconcile (canonical candidates : List String) : List String :=
  candidates.filter (fun g => !(canonical.contains g))

/-! ## Column resolution (`test.py` `_resolve_column` lines 109–118,
`test2.py` `_extract` lines 107–120 — the two variants run the same
algorithm) -/

/-- Header/name normalization: `re.sub(r"\s+", "", str(c)).strip().lower()`.
After removing every whitespace character the `strip` does nothing. -/
def normKey (s : String) : String :=
  lowStr (removeWs s)

/-- Python `dict` insertion: an existing key keeps its position but takes the
new value, a new key goes to the end. -/
def dictInsert (m : List (String × String)) (k v : String) :
    List (String × String) :=
  match m with
  | [] => [(k, v)]
  | (k0, v0) :: rest =>
    if k0 = k then (k0, v) :: rest else (k0, v0) :: dictInsert rest k v

/-- The dict comprehension `{_normalize(c): c for c in df.columns}`. -/
def buildMapping (cols : List String) : List (String × String) :=
  cols.foldl (fun m c => dictInsert m (normKey c) c) []

/-- Python `mapping[key]` / `key in mapping`. -/
def lookupKey (m : List (String × String)) (k : String) : Option String :=
  (m.find? (fun p => p.1 == k)).map (fun p => p.2)

/-- The column resolver: exact normalized match through the mapping dict,
else the first mapping item (in dict iteration order) whose key contains the
normalized target or is contained in it; `none` = `KeyError`. -/
def resolveColumn (cols : List String) (target : String) : Option String :=
  let tn := normKey target
  let m := buildMapping cols
  match lookupKey m tn with
  | some orig => some orig
  | none =>
    (m.find? (fun p => subOf tn p.1 || subOf p.1 tn)).map (fun p => p.2)

/-! ## Spreadsheet extraction and multi-sheet fallback (`test2.py`
`read_excel_column` lines 100–149) -/

/-- One parsed sheet: its column headers with the cells under each. -/
structure Frame where
  cols : List (String × List RawValue)
deriving DecidableEq

/-- The sheet's header list, in source order. -/
def frameHeaders (f : Frame) : List String :=
  f.cols.map (fun p => p.1)

/-- `df[colname]` for a resolved (hence present) header. -/
def getCol (f : Frame) (name : String) : List RawValue :=
  match f.cols.find? (fun p => p.1 == name) with
  | some p => p.2
  | none => []

/-- One cell's normalization in `_extract` lines 122–124:
`x.strip().upper()` followed by `.str.replace(r"\s+", "", regex=True)`. -/
def valueNorm (s : String) : String :=
  removeWs (upStr (pyStrip s))

/-- The value pipeline of `_extract` lines 122–124:
`dropna` → `astype(str)` → `strip().upper()` → remove all whitespace. -/
def extractVals (vals : List RawValue) : List String :=
  (vals.filter (fun v => !isNA v)).map (fun v => valueNorm (pyStr v))

/-- `test2.py` `_extract`: resolve the wanted column, then run the value
pipeline; `none` = `KeyError`. -/
def extractSheet (f : Frame) (wanted : String) : Option (List String) :=
  (resolveColumn (frameHeaders f) wanted).map
    (fun cn => extractVals (getCol f cn))

/-- The all-sheets loop of `read_excel_column` (lines 139–149): first sheet
whose `_extract` succeeds wins; otherwise the raised error carries the
accumulated `tried` map of sheet name ↦ header list. -/
def tryAllSheets (sheets : List (String × Frame)) (wanted : String)
    (tried : List (String × List String)) :
    Except (List (String × List String)) (List String) :=
  match sheets with
  | [] => .error tried
  | (nm, f) :: rest =>
    match extractSheet f wanted with
    | some vs => .ok vs
    | none => tryAllSheets rest wanted (tried ++ [(nm, frameHeaders f)])

/-- `test2.py` `read_excel_column` with `sheet=None`: try the first sheet
(`sheet_name=0`; when the workbook has no sheet at all this read raises and
is caught), then re-scan every sheet in order; `Except.error` =
`SystemExit` carrying the tried sheets and their headers. -/
def readExcelColumn2 (sheets : List (String × Frame)) (wanted : String) :
    Except (List (String × List String)) (List String) :=
  match sheets with
  | [] => tryAllSheets [] wanted []
  | (nm, f) :: rest =>
    match extractSheet f wanted with
    | some vs => .ok vs
    | none => tryAllSheets ((nm, f) :: rest) wanted []

/-- Equality of `Except` results is decidable (used to evaluate the
multi-sheet reader on concrete workbooks). -/
instance {ε α : Type} [DecidableEq ε] [DecidableEq α] : DecidableEq (Except ε α) :=
  fun a b =>
    match a, b with
    | .ok x, .ok y => if h : x = y then isTrue (by rw [h]) else isFalse (by simp [h])
    | .error x, .error y => if h : x = y then isTrue (by rw [h]) else isFalse (by simp [h])
    | .ok _, .error _ => isFalse (by simp)
    | .error _, .ok _ => isFalse (by simp)

/-! ## Generic lemmas about the string utilities -/

theorem length_eq_data (s : String) : s.length = s.data.length := rfl

theorem zFill_data (w : Nat) (s : String) :
    (zFill w s).data = List.replicate (w - s.length) '0' ++ s.data := by
  unfold zFill
  split
  · rfl
  · rename_i h
    have : w - s.length = 0 := Nat.sub_eq_zero_of_le (Nat.le_of_not_lt h)
    simp [this]

theorem zFill_length (w : Nat) (s : String) :
    (zFill w s).length = max w s.length := by
  rw [length_eq_data, zFill_data, List.length_append, List.length_replicate,
    ← length_eq_data]
  omega

theorem zFill_eq_self (w : Nat) (s : String) (h : w ≤ s.length) :
    zFill w s = s := by
  unfold zFill
  rw [if_neg (Nat.not_lt.mpr h)]

/-- A list with no whitespace character. -/
def NoWs (l : List Char) : Prop :=
  ∀ c ∈ l, isWs c = false

theorem noWs_append {l1 l2 : List Char} (h1 : NoWs l1) (h2 : NoWs l2) :
    NoWs (l1 ++ l2) := by
  intro c hc
  rcases List.mem_append.mp hc with h | h
  · exact h1 c h
  · exact h2 c h

theorem noWs_replicate (k : Nat) : NoWs (List.replicate k '0') := by
  intro c hc
  rw [List.eq_of_mem_replicate hc]
  decide

theorem noWs_removeWsL (l : List Char) : NoWs (removeWsL l) := by
  intro c hc
  have := (List.mem_filter.mp hc).2
  simpa using this

theorem dropWhile_eq_self_of_noWs {l : List Char} (h : NoWs l) :
    l.dropWhile isWs = l := by
  cases l with
  | nil => rfl
  | cons c cs =>
    rw [List.dropWhile_cons, if_neg]
    rw [h c (List.mem_cons_self c cs)]
    simp

theorem noWs_reverse {l : List Char} (h : NoWs l) : NoWs l.reverse := by
  intro c hc
  exact h c (List.mem_reverse.mp hc)

theorem pyStripL_eq_self_of_noWs {l : List Char} (h : NoWs l) :
    pyStripL l = l := by
  unfold pyStripL dropWsL
  rw [dropWhile_eq_self_of_noWs h, dropWhile_eq_self_of_noWs (noWs_reverse h),
    List.reverse_reverse]

theorem removeWsL_eq_self_of_noWs {l : List Char} (h : NoWs l) :
    removeWsL l = l := by
  unfold removeWsL
  refine List.filter_eq_self.mpr ?_
  intro c hc
  rw [h c hc]
  rfl

/-! ## ASCII upper-casing lemmas -/

theorem upChar_of_lower (c : Char) (h : 97 ≤ c.toNat ∧ c.toNat ≤ 122) :
    upChar c = Char.ofNat (c.toNat - 32) := by
  unfold upChar
  exact if_pos h

theorem upChar_of_not_lower (c : Char) (h : ¬(97 ≤ c.toNat ∧ c.toNat ≤ 122)) :
    upChar c = c := by
  unfold upChar
  exact if_neg h

theorem upChar_upChar (c : Char) : upChar (upChar c) = upChar c := by
  by_cases h : 97 ≤ c.toNat ∧ c.toNat ≤ 122
  · rw [upChar_of_lower c h]
    obtain ⟨h1, h2⟩ := h
    obtain ⟨n, hn⟩ : ∃ n, c.toNat = n := ⟨_, rfl⟩
    rw [hn] at h1 h2 ⊢
    interval_cases n <;> decide
  · rw [upChar_of_not_lower c h]
    exact upChar_of_not_lower c h

theorem isWs_eq_false_of_ge (c : Char) (h : 33 ≤ c.toNat) : isWs c = false := by
  have hsp : c ≠ ' ' := fun e => absurd (e ▸ h) (by decide)
  have htb : c ≠ '\t' := fun e => absurd (e ▸ h) (by decide)
  have hcr : c ≠ '\r' := fun e => absurd (e ▸ h) (by decide)
  have hlf : c ≠ '\n' := fun e => absurd (e ▸ h) (by decide)
  simp [isWs, Char.isWhitespace, hsp, htb, hcr, hlf]

theorem isWs_upChar (c : Char) : isWs (upChar c) = isWs c := by
  by_cases h : 97 ≤ c.toNat ∧ c.toNat ≤ 122
  · rw [upChar_of_lower c h]
    obtain ⟨h1, h2⟩ := h
    have hc : isWs c = false := isWs_eq_false_of_ge c (by omega)
    rw [hc]
    obtain ⟨n, hn⟩ : ∃ n, c.toNat = n := ⟨_, rfl⟩
    rw [hn] at h1 h2
    rw [hn]
    interval_cases n <;> decide
  · rw [upChar_of_not_lower c h]

theorem noWs_map_upChar {l : List Char} (h : NoWs l) : NoWs (l.map upChar) := by
  intro c hc
  obtain ⟨a, ha, rfl⟩ := List.mem_map.mp hc
  rw [isWs_upChar]
  exact h a ha

theorem map_upChar_idem (l : List Char) :
    (l.map upChar).map upChar = l.map upChar := by
  rw [List.map_map]
  exact List.map_congr_left fun c _ => upChar_upChar c

/-! ## Lemmas about the positional numeral renderer -/

theorem digitVal_digitCh : ∀ m, m < 16 → digitVal (digitCh m) = m := by decide

theorem isHexUp_digitCh : ∀ m, m < 16 → isHexUp (digitCh m) = true := by decide

theorem isDigit_digitCh : ∀ m, m < 10 → (digitCh m).isDigit = true := by decide

theorem isWs_digitCh : ∀ m, m < 16 → isWs (digitCh m) = false := by decide

theorem toBaseAux_mem {b : Nat} (hb : 0 < b) :
    ∀ fuel n c, c ∈ toBaseAux b n fuel → ∃ m, m < b ∧ c = digitCh m := by
  intro fuel
  induction fuel with
  | zero => intro n c hc; simp [toBaseAux] at hc
  | succ fuel ih =>
    intro n c hc
    unfold toBaseAux at hc
    split at hc
    · simp at hc
    · rcases List.mem_append.mp hc with h | h
      · exact ih (n / b) c h
      · refine ⟨n % b, Nat.mod_lt n hb, ?_⟩
        simpa using h

theorem toBaseAux_ne_nil {b : Nat} :
    ∀ fuel n, 0 < n → n ≤ fuel → toBaseAux b n fuel ≠ [] := by
  intro fuel
  cases fuel with
  | zero => intro n h1 h2; omega
  | succ fuel =>
    intro n h1 _
    unfold toBaseAux
    rw [if_neg (Nat.pos_iff_ne_zero.mp h1)]
    simp

theorem toBaseAux_len_le {b : Nat} (hb : 1 < b) :
    ∀ fuel n k, n ≤ fuel → n < b ^ k → (toBaseAux b n fuel).length ≤ k := by
  intro fuel
  induction fuel with
  | zero =>
    intro n k h1 _
    simp [toBaseAux]
  | succ fuel ih =>
    intro n k h1 h2
    unfold toBaseAux
    split
    · simp
    · rename_i hn
      have hnpos : 0 < n := Nat.pos_iff_ne_zero.mpr hn
      cases k with
      | zero => simp at h2; omega
      | succ k =>
        have hdivfuel : n / b ≤ fuel := by
          have := Nat.div_lt_self hnpos hb
          omega
        have hdivlt : n / b < b ^ k := by
          rw [Nat.div_lt_iff_lt_mul (by omega : 0 < b)]
          rw [← pow_succ]
          exact h2
        have := ih (n / b) k hdivfuel hdivlt
        rw [List.length_append]
        simp
        omega

theorem toBaseAux_len_gt {b : Nat} (hb : 1 < b) :
    ∀ fuel n k, n ≤ fuel → b ^ k ≤ n → k < (toBaseAux b n fuel).length := by
  intro fuel
  induction fuel with
  | zero =>
    intro n k h1 h2
    have : 0 < b ^ k := Nat.pos_pow_of_pos k (by omega)
    omega
  | succ fuel ih =>
    intro n k h1 h2
    have hnpos : 0 < n := by
      have : 0 < b ^ k := Nat.pos_pow_of_pos k (by omega)
      omega
    unfold toBaseAux
    rw [if_neg (Nat.pos_iff_ne_zero.mp hnpos)]
    rw [List.length_append]
    cases k with
    | zero => simp
    | succ k =>
      have hdivfuel : n / b ≤ fuel := by
        have := Nat.div_lt_self hnpos hb
        omega
      have hdivge : b ^ k ≤ n / b := by
        rw [Nat.le_div_iff_mul_le (by omega : 0 < b)]
        rw [← pow_succ]
        exact h2
      have := ih (n / b) k hdivfuel hdivge
      simp
      omega

theorem toBaseAux_foldl {b : Nat} (hb : 1 < b) (hb16 : b ≤ 16) :
    ∀ fuel n a, n ≤ fuel →
      List.foldl (fun x c => x * b + digitVal c) a (toBaseAux b n fuel) =
        a * b ^ (toBaseAux b n fuel).length + n := by
  intro fuel
  induction fuel with
  | zero =>
    intro n a h1
    have : n = 0 := by omega
    subst this
    simp [toBaseAux]
  | succ fuel ih =>
    intro n a h1
    unfold toBaseAux
    split
    · rename_i hn
      subst hn
      simp
    · rename_i hn
      have hnpos : 0 < n := Nat.pos_iff_ne_zero.mpr hn
      have hdivfuel : n / b ≤ fuel := by
        have := Nat.div_lt_self hnpos hb
        omega
      rw [List.foldl_append]
      rw [ih (n / b) a hdivfuel]
      have hmod : digitVal (digitCh (n % b)) = n % b :=
        digitVal_digitCh (n % b) (lt_of_lt_of_le (Nat.mod_lt n (by omega)) hb16)
      simp only [List.foldl_cons, List.foldl_nil, hmod]
      rw [List.length_append]
      simp only [List.length_cons, List.length_nil]
      rw [pow_succ]
      have hdm : b * (n / b) + n % b = n := Nat.div_add_mod n b
      ring_nf
      ring_nf at hdm ⊢
      nlinarith [Nat.div_add_mod n b]

theorem fromBaseL_replicate_zero (b k : Nat) :
    List.foldl (fun x c => x * b + digitVal c) 0 (List.replicate k '0') = 0 := by
  induction k with
  | zero => rfl
  | succ k ih =>
    rw [List.replicate_succ, List.foldl_cons]
    simpa using ih

theorem toBase_data_zero (b : Nat) : (toBase b 0).data = ['0'] := rfl

theorem toBase_data_pos {b n : Nat} (h : 0 < n) :
    (toBase b n).data = toBaseAux b n n := by
  unfold toBase
  rw [if_neg (Nat.pos_iff_ne_zero.mp h)]

theorem toBase_ne_empty {b n : Nat} : (toBase b n).data ≠ [] := by
  rcases Nat.eq_zero_or_pos n with h | h
  · subst h; rw [toBase_data_zero]; simp
  · rw [toBase_data_pos h]
    exact toBaseAux_ne_nil n n h (Nat.le_refl n)

theorem toBase_mem {b n : Nat} (hb : 1 < b) :
    ∀ c ∈ (toBase b n).data, ∃ m, m < b ∧ c = digitCh m := by
  rcases Nat.eq_zero_or_pos n with h | h
  · subst h
    rw [toBase_data_zero]
    intro c hc
    refine ⟨0, by omega, ?_⟩
    simp at hc
    subst hc
    rfl
  · rw [toBase_data_pos h]
    exact fun c hc => toBaseAux_mem (by omega) n n c hc

theorem fromBaseL_toBase {b n : Nat} (hb : 1 < b) (hb16 : b ≤ 16) :
    fromBaseL b (toBase b n).data = n := by
  rcases Nat.eq_zero_or_pos n with h | h
  · subst h
    rw [toBase_data_zero]
    simp [fromBaseL, digitVal]
  · rw [toBase_data_pos h]
    unfold fromBaseL
    rw [toBaseAux_foldl hb hb16 n n 0 (Nat.le_refl n)]
    simp

theorem toBase_length_le {b n k : Nat} (hb : 1 < b) (h : n < b ^ k)
    (hk : 0 < k) : (toBase b n).length ≤ k := by
  rcases Nat.eq_zero_or_pos n with h0 | h0
  · subst h0
    have : (toBase b 0).length = 1 := rfl
    omega
  · rw [length_eq_data, toBase_data_pos h0]
    exact toBaseAux_len_le hb n n k (Nat.le_refl n) h

theorem toBase_length_gt {b n k : Nat} (hb : 1 < b) (h : b ^ k ≤ n) :
    k < (toBase b n).length := by
  have h0 : 0 < n := by
    have : 0 < b ^ k := Nat.pos_pow_of_pos k (by omega)
    omega
  rw [length_eq_data, toBase_data_pos h0]
  exact toBaseAux_len_gt hb n n k (Nat.le_refl n) h

theorem noWs_toBase {b n : Nat} (hb : 1 < b) (hb16 : b ≤ 16) :
    NoWs (toBase b n).data := by
  intro c hc
  obtain ⟨m, hm, rfl⟩ := toBase_mem hb c hc
  exact isWs_digitCh m (by omega)

theorem natToDec_all_digits (n : Nat) :
    (natToDec n).data.all Char.isDigit = true := by
  rw [List.all_eq_true]
  intro c hc
  obtain ⟨m, hm, rfl⟩ := toBase_mem (by omega) c hc
  exact isDigit_digitCh m hm

theorem natToHex_all_hex (n : Nat) :
    (natToHex n).data.all isHexUp = true := by
  rw [List.all_eq_true]
  intro c hc
  obtain ⟨m, hm, rfl⟩ := toBase_mem (by omega) c hc
  exact isHexUp_digitCh m hm

/-- Parsing the decimal rendering of `n` with Python `int` recovers `n`. -/
theorem pyIntOfStr_natToDec (n : Nat) : pyIntOfStr (natToDec n) = some n := by
  unfold pyIntOfStr
  have hstrip : pyStripL (natToDec n).data = (natToDec n).data :=
    pyStripL_eq_self_of_noWs (noWs_toBase (by omega) (by omega))
  simp only [hstrip]
  rw [if_pos ⟨toBase_ne_empty, natToDec_all_digits n⟩]
  exact congrArg some (fromBaseL_toBase (by omega) (by omega))

/-- The padded hex rendering still denotes the rendered value: zero padding
never changes the value and nothing is truncated. -/
theorem fromHexStr_pyHexFmt (n w : Nat) : fromHexStr (pyHexFmt n w) = some n := by
  unfold fromHexStr
  have hdata : (pyHexFmt n w).data =
      List.replicate (w - (natToHex n).length) '0' ++ (natToHex n).data :=
    zFill_data w (natToHex n)
  rw [hdata]
  rw [if_pos]
  · refine congrArg some ?_
    unfold fromBaseL
    rw [List.foldl_append]
    rw [fromBaseL_replicate_zero 16 (w - (natToHex n).length)]
    exact fromBaseL_toBase (by omega) (by omega)
  · constructor
    · intro hemp
      exact toBase_ne_empty (List.append_eq_nil.mp hemp).2
    · rw [List.all_append, Bool.and_eq_true]
      refine ⟨?_, natToHex_all_hex n⟩
      rw [List.all_eq_true]
      intro c hc
      rw [List.eq_of_mem_replicate hc]
      decide

theorem noWs_pyHexFmt (n w : Nat) : NoWs (pyHexFmt n w).data := by
  unfold pyHexFmt
  rw [zFill_data]
  exact noWs_append (noWs_replicate _) (noWs_toBase (by omega) (by omega))

/-! ## Whitespace- and shape-facts about the builder's output -/

theorem noWs_pyDigits (v : RawValue) : NoWs (pyDigits v).data := by
  cases v with
  | null => intro c hc; simp [pyDigits] at hc
  | int n => exact noWs_toBase (by omega) (by omega)
  | text s => exact noWs_removeWsL s.data

theorem noWs_zFill {w : Nat} {s : String} (h : NoWs s.data) :
    NoWs (zFill w s).data := by
  rw [zFill_data]
  exact noWs_append (noWs_replicate _) h

theorem noWs_mncSegment {mode raw : String} (h : NoWs raw.data) :
    NoWs (mncSegment mode raw).data := by
  unfold mncSegment
  split
  · exact noWs_zFill h
  · split
    · exact noWs_zFill h
    · cases hp : pyIntOfStr raw with
      | none => simpa [hp] using h
      | some n =>
        simp only [hp]
        split
        · exact noWs_zFill (noWs_toBase (by omega) (by omega))
        · exact noWs_zFill (noWs_toBase (by omega) (by omega))

theorem toHex2_noWs {v : RawValue} {w : Nat} {h : String}
    (hh : toHex2 v w = some h) : NoWs h.data := by
  cases v with
  | null =>
    simp only [toHex2] at hh
    cases hh
    intro c hc
    simp at hc
  | int n =>
    simp only [toHex2] at hh
    cases hh
    exact noWs_pyHexFmt n w
  | text s =>
    simp only [toHex2] at hh
    split at hh
    · cases hh
      intro c hc
      simp at hc
    · split at hh
      · cases hh
        exact noWs_pyHexFmt _ w
      · rcases Option.map_eq_some'.mp hh with ⟨n, _, rfl⟩
        exact noWs_pyHexFmt n w

theorem upStr_data (s : String) : (upStr s).data = s.data.map upChar := rfl

theorem upStr_length (s : String) : (upStr s).length = s.length := by
  rw [length_eq_data, length_eq_data, upStr_data, List.length_map]

/-- Everything `build_id` returns is the upper-casing of a whitespace-free
string of length at least 3 (the zero-filled MCC segment alone has length
at least 3). -/
theorem buildId2_some_shape {mcc mnc lac ci : RawValue} {mode : String}
    {lw cw : Nat} {s : String}
    (h : buildId2 mcc mnc lac ci mode lw cw = some s) :
    ∃ t : String, s = upStr t ∧ NoWs t.data ∧ 3 ≤ s.length := by
  unfold buildId2 at h
  cases hl : toHex2 lac lw with
  | none => rw [hl] at h; cases h
  | some lacH =>
    cases hc : toHex2 ci cw with
    | none => rw [hl, hc] at h; cases h
    | some ciH =>
      rw [hl, hc] at h
      simp only [Option.some_inj] at h
      subst h
      refine ⟨_, rfl, ?_, ?_⟩
      · rw [String.data_append, String.data_append, String.data_append]
        refine noWs_append (noWs_append (noWs_append ?_ ?_) ?_) ?_
        · exact noWs_zFill (noWs_pyDigits mcc)
        · exact noWs_mncSegment (noWs_pyDigits mnc)
        · exact toHex2_noWs hl
        · exact toHex2_noWs hc
      · rw [upStr_length, String.length_append, String.length_append,
          String.length_append, zFill_length]
        omega

/-- The spreadsheet cell normalization fixes the upper-casing of any
whitespace-free string. -/
theorem valueNorm_upStr {t : String} (h : NoWs t.data) :
    valueNorm (upStr t) = upStr t := by
  unfold valueNorm
  have hu : NoWs (upStr t).data := by
    rw [upStr_data]
    exact noWs_map_upChar h
  have h1 : pyStrip (upStr t) = upStr t := by
    unfold pyStrip
    rw [pyStripL_eq_self_of_noWs hu]
  rw [h1]
  have h2 : upStr (upStr t) = upStr t := by
    apply String.ext
    show (t.data.map upChar).map upChar = t.data.map upChar
    exact map_upChar_idem t.data
  rw [h2]
  unfold removeWs
  rw [removeWsL_eq_self_of_noWs hu]

/-! ## Reconciliation lemmas -/

theorem reconcile_count (canonical candidates : List String) (x : String) :
    (reconcile canonical candidates).count x =
      if x ∈ canonical then 0 else candidates.count x := by
  unfold reconcile
  by_cases hx : x ∈ canonical
  · rw [if_pos hx]
    refine List.count_eq_zero.mpr ?_
    intro hmem
    have hpred := (List.mem_filter.mp hmem).2
    simp at hpred
    exact hpred hx
  · rw [if_neg hx]
    refine List.count_filter ?_
    simp [hx]

/-! ## Column-resolver lemmas -/

theorem dictInsert_fresh (m : List (String × String)) (k v : String)
    (h : ∀ p ∈ m, p.1 ≠ k) : dictInsert m k v = m ++ [(k, v)] := by
  induction m with
  | nil => rfl
  | cons p rest ih =>
    obtain ⟨k0, v0⟩ := p
    unfold dictInsert
    rw [if_neg (h (k0, v0) (List.mem_cons_self _ rest))]
    rw [ih fun q hq => h q (List.mem_cons_of_mem _ hq)]
    rfl

theorem foldl_dictInsert (cols : List String) :
    ∀ acc : List (String × String),
      (cols.map normKey).Nodup →
      (∀ c ∈ cols, ∀ p ∈ acc, p.1 ≠ normKey c) →
      cols.foldl (fun m c => dictInsert m (normKey c) c) acc =
        acc ++ cols.map (fun c => (normKey c, c)) := by
  induction cols with
  | nil => intro acc _ _; simp
  | cons c rest ih =>
    intro acc hnd hfresh
    rw [List.foldl_cons]
    rw [dictInsert_fresh acc (normKey c) c
      (fun p hp => hfresh c (List.mem_cons_self c rest) p hp)]
    rw [List.map_cons, List.nodup_cons] at hnd
    rw [ih (acc ++ [(normKey c, c)]) hnd.2 ?_]
    · simp
    · intro d hd p hp
      rcases List.mem_append.mp hp with h | h
      · exact hfresh d (List.mem_cons_of_mem c hd) p h
      · have hpc : p = (normKey c, c) := by simpa using h
        subst hpc
        intro he
        apply hnd.1
        rw [show normKey c = normKey d from he]
        exact List.mem_map_of_mem normKey hd

theorem buildMapping_eq (cols : List String) (h : (cols.map normKey).Nodup) :
    buildMapping cols = cols.map (fun c => (normKey c, c)) := by
  unfold buildMapping
  rw [foldl_dictInsert cols [] h (by intro c _ p hp; simp at hp)]
  simp

/-! ## Multi-sheet fallback lemmas -/

theorem tryAllSheets_spec (wanted : String) :
    ∀ (sheets : List (String × Frame)) (tried : List (String × List String)),
      tryAllSheets sheets wanted tried =
        match sheets.find? (fun p => (extractSheet p.2 wanted).isSome) with
        | some p => .ok ((extractSheet p.2 wanted).getD [])
        | none => .error (tried ++ sheets.map (fun p => (p.1, frameHeaders p.2))) := by
  intro sheets
  induction sheets with
  | nil => intro tried; simp [tryAllSheets]
  | cons p rest ih =>
    intro tried
    obtain ⟨nm, f⟩ := p
    unfold tryAllSheets
    cases hx : extractSheet f wanted with
    | some vs =>
      rw [List.find?_cons_of_pos _ (by simp [hx])]
      simp [hx]
    | none =>
      rw [List.find?_cons_of_neg _ (by simp [hx])]
      rw [ih (tried ++ [(nm, frameHeaders f)])]
      cases rest.find? (fun p => (extractSheet p.2 wanted).isSome) with
      | some q => rfl
      | none => simp

/-! ## Claims -/

/-- C2: the reconciliation diff keeps exactly the candidate-list elements
that are not members of the canonical set, in original order (it is a
sublist of the candidates) and with duplicates preserved verbatim (the
occurrence count of every retained element is unchanged, and members of the
canonical set have count zero); in particular for canonical `{"A","B"}` and
candidates `["A","C","C","B"]` the result is `["C","C"]`. -/
theorem claim2_reconcile :
    (∀ canonical candidates : List String,
        (reconcile canonical candidates).Sublist candidates ∧
        ∀ x : String, (reconcile canonical candidates).count x =
          if x ∈ canonical then 0 else candidates.count x) ∧
    reconcile ["A", "B"] ["A", "C", "C", "B"] = ["C", "C"] := by
  refine ⟨fun canonical candidates =>
    ⟨List.filter_sublist candidates, fun x => reconcile_count canonical candidates x⟩,
    by decide⟩

/-- C4: hex normalization renders the value as upper-case hexadecimal
left-zero-padded to the width and never truncates: the rendering parses back
to the value through the independent hex reader (which also certifies that
every character is an upper-case hex digit), its length is the maximum of
the width and the natural length, and it is exactly the zero padding
followed by the natural rendering; `normalize_hex(10, 4) = "000A"` and
`normalize_hex(65536, 4) = "10000"`. -/
theorem claim4_hex :
    (∀ n w : Nat,
        fromHexStr (pyHexFmt n w) = some n ∧
        (pyHexFmt n w).length = max w (natToHex n).length ∧
        (pyHexFmt n w).data =
          List.replicate (w - (natToHex n).length) '0' ++ (natToHex n).data) ∧
    pyHexFmt 10 4 = "000A" ∧ pyHexFmt 65536 4 = "10000" := by
  refine ⟨fun n w =>
    ⟨fromHexStr_pyHexFmt n w, zFill_length w (natToHex n), zFill_data w (natToHex n)⟩,
    by decide, by decide⟩

/-- C5: `test2.py`'s hex normalization yields the empty string for every
absent or blank input, and when direct integer parsing fails it retries the
comma-replaced text as a floating value truncated to an integer; in
particular `"10,5"` at width 4 normalizes to `"000A"`. -/
theorem claim5_hexnorm :
    (∀ w : Nat, toHex2 .null w = some "") ∧
    (∀ (s : String) (w : Nat), pyStrip s = "" → toHex2 (.text s) w = some "") ∧
    (∀ (s : String) (w n : Nat), pyStrip s ≠ "" → pyIntOfStr s = none →
        pyFloatTrunc (commaToDot s) = some n →
        toHex2 (.text s) w = some (pyHexFmt n w)) ∧
    toHex2 (.text "10,5") 4 = some "000A" := by
  refine ⟨fun w => rfl, ?_, ?_, by decide⟩
  · intro s w hb
    simp only [toHex2, if_pos hb]
  · intro s w n hb hint hfloat
    simp only [toHex2, if_neg hb, hint, hfloat, Option.map_some']

/-- Witness for C5 at a concrete blank input and a concrete comma-decimal
input. -/
theorem claim5_witness :
    toHex2 (.text "  ") 4 = some "" ∧
    toHex2 (.text "10,5") 6 = some (pyHexFmt 10 6) :=
  ⟨claim5_hexnorm.2.1 "  " 4 (by decide),
    claim5_hexnorm.2.2.1 "10,5" 6 10 (by decide) (by decide) (by decide)⟩

/-- C10: under the fixed MNC modes the builder only zero-fills and never
truncates: a normalized MNC digit string longer than the mode width passes
through unchanged, so the composite identifier can be longer than
`mcc_width + mode width + lac_width + ci_width`. -/
theorem claim10_fixed_modes :
    (∀ mnc : RawValue, 2 < (pyDigits mnc).length →
        mncSegment "2" (pyDigits mnc) = pyDigits mnc) ∧
    (∀ mnc : RawValue, 3 < (pyDigits mnc).length →
        mncSegment "3" (pyDigits mnc) = pyDigits mnc) ∧
    buildId2 (.int 250) (.int 1234) (.int 10) (.int 20) "2" 4 4 =
      some "2501234000A0014" ∧
    3 + 2 + 4 + 4 < ("2501234000A0014" : String).length := by
  refine ⟨?_, ?_, by decide, by decide⟩
  · intro mnc h
    unfold mncSegment
    rw [if_pos rfl]
    exact zFill_eq_self _ _ (by omega)
  · intro mnc h
    unfold mncSegment
    rw [if_neg (by decide), if_pos rfl]
    exact zFill_eq_self _ _ (by omega)

/-- Witness for C10 at a four-digit MNC under both fixed modes. -/
theorem claim10_witness :
    2 < (pyDigits (.text "1234")).length ∧
    mncSegment "2" (pyDigits (.text "1234")) = pyDigits (.text "1234") ∧
    mncSegment "3" (pyDigits (.text "1234")) = pyDigits (.text "1234") :=
  ⟨by decide, claim10_fixed_modes.1 (.text "1234") (by decide),
    claim10_fixed_modes.2.1 (.text "1234") (by decide)⟩

/-- C7: with no sheet specified, the reader tries the default (first) sheet,
then re-scans every sheet in source order; the overall result is the
extraction from the first sheet whose column resolves, and when no sheet
resolves the raised error carries the name and full header list of every
sheet of the workbook. -/
theorem claim7_multisheet : ∀ (sheets : List (String × Frame)) (wanted : String),
    readExcelColumn2 sheets wanted =
      match sheets.find? (fun p => (extractSheet p.2 wanted).isSome) with
      | some p => .ok ((extractSheet p.2 wanted).getD [])
      | none => .error (sheets.map (fun p => (p.1, frameHeaders p.2))) := by
  intro sheets wanted
  cases sheets with
  | nil => rfl
  | cons p rest =>
    obtain ⟨nm, f⟩ := p
    unfold readExcelColumn2
    cases hx : extractSheet f wanted with
    | some vs =>
      rw [List.find?_cons_of_pos _ (by simp [hx])]
      simp [hx]
    | none =>
      simp only [hx]
      rw [tryAllSheets_spec wanted ((nm, f) :: rest) []]
      cases h2 : ((nm, f) :: rest).find? (fun p => (extractSheet p.2 wanted).isSome) with
      | some q => simp [h2]
      | none => simp [h2]

/-- C1 is false of the code on two counts: a row whose LAC is non-blank,
non-numeric text makes the builder raise (the uncaught
`int(float(...))`), and a row whose MCC is non-numeric text yields a
non-empty pass-through identifier (never the empty-string sentinel), which
survives the `if s` filter and enters the canonical list. -/
theorem claim1_counterexample :
    buildId2 (.int 250) (.int 1) (.text "abc") (.int 20) "auto" 4 4 = none ∧
    buildId2 (.text "X") (.int 1) (.int 10) (.int 20) "auto" 4 4 =
      some "00X01000A0014" ∧
    pyIntOfStr (pyDigits (.text "X")) = none ∧
    ("00X01000A0014" : String) ≠ "" ∧
    fetchIds [(.text "X", .int 1, .int 10, .int 20)] "auto" 4 4 =
      some ["00X01000A0014"] := by
  refine ⟨by decide, by decide, by decide, by decide, by decide⟩

/-- C1 amended: the builder raises exactly when the LAC or CI hex
normalization raises (a non-blank value parsing as neither integer nor
decimal); every identifier it does return is non-empty (the zero-filled MCC
segment alone has at least 3 characters), so unparseable MCC/MNC fields
degrade to pass-through text inside a non-empty identifier and the
empty-string filter before set construction never actually removes
anything. -/
theorem claim1_amended : ∀ (mcc mnc lac ci : RawValue) (mode : String) (lw cw : Nat),
    (buildId2 mcc mnc lac ci mode lw cw = none ↔
      (toHex2 lac lw = none ∨ toHex2 ci cw = none)) ∧
    (∀ s : String, buildId2 mcc mnc lac ci mode lw cw = some s →
      3 ≤ s.length ∧ s ≠ "") := by
  intro mcc mnc lac ci mode lw cw
  constructor
  · unfold buildId2
    cases hl : toHex2 lac lw <;> cases hc : toHex2 ci cw <;> simp
  · intro s hs
    obtain ⟨t, rfl, _, hlen⟩ := buildId2_some_shape hs
    refine ⟨hlen, ?_⟩
    intro he
    have h0 : (upStr t).length = 0 := by rw [he]; rfl
    omega

/-- Witness for C1 amended at an all-integer row. -/
theorem claim1_witness :
    3 ≤ ("25001000A0014" : String).length ∧ ("25001000A0014" : String) ≠ "" :=
  (claim1_amended (.int 250) (.int 1) (.int 10) (.int 20) "auto" 4 4).2
    "25001000A0014" (by decide)

/-- C3 is false of the code for MNC values of four or more digits: the
`auto` mode renders `mnc = 1000` with `f"{1000:03d}" = "1000"` (four
characters, not exactly three), and the composite identifier is one
character longer than the claimed widths. -/
theorem claim3_counterexample :
    pyIntOfStr (pyDigits (.int 1000)) = some 1000 ∧
    ¬(1000 < 100) ∧
    mncSegment "auto" (pyDigits (.int 1000)) = "1000" ∧
    ("1000" : String).length ≠ 3 ∧
    buildId2 (.int 250) (.int 1000) (.int 10) (.int 20) "auto" 4 4 =
      some "2501000000A0014" ∧
    ("2501000000A0014" : String).length ≠ 3 + 3 + 4 + 4 := by decide

/-- C3 amended: under `auto`, a parsed MNC value renders with `f"{v:02d}"`
below 100 and `f"{v:03d}"` otherwise — exactly 2 digits below 100, exactly
3 digits for 100–999, and the full untruncated decimal rendering (at least
4 digits) from 1000 up; an unparseable digit string passes through
unchanged; `mnc = 1` renders `"01"` (giving the composite
`"25001000A0014"`) and `mnc = 120` renders `"120"`. -/
theorem claim3_amended :
    (∀ (mnc : RawValue) (n : Nat), pyIntOfStr (pyDigits mnc) = some n →
        mncSegment "auto" (pyDigits mnc) =
          (if n < 100 then zFill 2 (natToDec n) else zFill 3 (natToDec n)) ∧
        (n < 100 → (mncSegment "auto" (pyDigits mnc)).length = 2) ∧
        (100 ≤ n → n < 1000 → (mncSegment "auto" (pyDigits mnc)).length = 3) ∧
        (1000 ≤ n → mncSegment "auto" (pyDigits mnc) = natToDec n)) ∧
    (∀ mnc : RawValue, pyIntOfStr (pyDigits mnc) = none →
        mncSegment "auto" (pyDigits mnc) = pyDigits mnc) ∧
    buildId2 (.int 250) (.int 1) (.int 10) (.int 20) "auto" 4 4 =
      some "25001000A0014" ∧
    mncSegment "auto" (pyDigits (.int 1)) = "01" ∧
    mncSegment "auto" (pyDigits (.int 120)) = "120" := by
  have hp2 : (10 : Nat) ^ 2 = 100 := by norm_num
  have hp3 : (10 : Nat) ^ 3 = 1000 := by norm_num
  refine ⟨?_, ?_, by decide, by decide, by decide⟩
  · intro mnc n hp
    have hseg : mncSegment "auto" (pyDigits mnc) =
        (if n < 100 then zFill 2 (natToDec n) else zFill 3 (natToDec n)) := by
      unfold mncSegment
      rw [if_neg (by decide), if_neg (by decide), hp]
    refine ⟨hseg, ?_, ?_, ?_⟩
    · intro hn
      rw [hseg, if_pos hn, zFill_length]
      have h1 : (natToDec n).length ≤ 2 :=
        toBase_length_le (by omega) (by rw [hp2]; exact hn) (by omega)
      omega
    · intro h100 h1000
      rw [hseg, if_neg (by omega), zFill_length]
      have h1 : (natToDec n).length ≤ 3 :=
        toBase_length_le (by omega) (by rw [hp3]; exact h1000) (by omega)
      have h2 : 2 < (natToDec n).length :=
        toBase_length_gt (by omega) (by rw [hp2]; exact h100)
      omega
    · intro hn
      rw [hseg, if_neg (by omega)]
      refine zFill_eq_self _ _ ?_
      have h3 : 3 < (natToDec n).length :=
        toBase_length_gt (by omega) (by rw [hp3]; exact hn)
      omega
  · intro mnc hp
    unfold mncSegment
    rw [if_neg (by decide), if_neg (by decide), hp]

/-- Witness for C3 amended at `mnc = 120` and at an unparseable MNC. -/
theorem claim3_witness :
    pyIntOfStr (pyDigits (.int 120)) = some 120 ∧
    mncSegment "auto" (pyDigits (.int 120)) =
      (if 120 < 100 then zFill 2 (natToDec 120) else zFill 3 (natToDec 120)) ∧
    (mncSegment "auto" (pyDigits (.int 120))).length = 3 ∧
    mncSegment "auto" (pyDigits (.text "ab")) = pyDigits (.text "ab") :=
  ⟨by decide, (claim3_amended.1 (.int 120) 120 (by decide)).1,
    (claim3_amended.1 (.int 120) 120 (by decide)).2.2.1 (by decide) (by decide),
    claim3_amended.2.1 (.text "ab") (by decide)⟩

/-- C6 is false of the code when two headers share a normalized form: the
dict comprehension keeps the position of the first but the value of the
last, so the fallback returns `"GCIID"` although `"GCI ID"` is the first
header in source order whose normalized form contains the normalized
logical name. -/
theorem claim6_counterexample :
    resolveColumn ["GCI ID", "GCIID"] "GCI" = some "GCIID" ∧
    subOf (normKey "GCI") (normKey "GCI ID") = true ∧
    ("GCIID" : String) ≠ "GCI ID" := by decide

/-- C6 amended: when the headers' normalized forms are pairwise distinct,
the resolver returns the exact normalized match when one exists, and
otherwise the first header in source iteration order whose normalized form
contains the normalized logical name or is contained in it. -/
theorem claim6_amended : ∀ (cols : List String) (target : String),
    (cols.map normKey).Nodup →
    resolveColumn cols target =
      match cols.find? (fun c => normKey c == normKey target) with
      | some c => some c
      | none => cols.find? (fun c =>
          subOf (normKey target) (normKey c) || subOf (normKey c) (normKey target)) := by
  intro cols target hnd
  unfold resolveColumn lookupKey
  simp only [buildMapping_eq cols hnd, List.find?_map, Function.comp_def]
  cases h1 : cols.find? (fun c => normKey c == normKey target) with
  | some c => simp [h1]
  | none =>
    simp only [h1, Option.map_none']
    cases cols.find?
      (fun x => subOf (normKey target) (normKey x) || subOf (normKey x) (normKey target)) with
    | none => rfl
    | some d => rfl

/-- Witness for C6 amended: headers `["GCI ID", "Notes"]` and logical name
`"GCI"` resolve to `"GCI ID"`. -/
theorem claim6_witness :
    (["GCI ID", "Notes"].map normKey).Nodup ∧
    resolveColumn ["GCI ID", "Notes"] "GCI" = some "GCI ID" :=
  ⟨by decide, (claim6_amended ["GCI ID", "Notes"] "GCI" (by decide)).trans (by decide)⟩

/-- C8 is false of the code: on the identical row and identical
configuration the `test.py` builder raises on a comma-decimal LAC while the
`test2.py` builder normalizes it, and `parse_excel_access.py` zero-fills
the MNC to a fixed 3 digits where the other variants render 2, so the
variants differ in algorithm, not only in configuration defaults. -/
theorem claim8_counterexample :
    buildId1 (.int 250) (.int 1) (.text "10,5") (.int 20) 3 "auto" 4 4 = none ∧
    buildId2 (.int 250) (.int 1) (.text "10,5") (.int 20) "auto" 4 4 =
      some "25001000A0014" ∧
    combineRow (.int 250) (.int 1) (.int 10) (.int 20) (some 4) (some 4) 3 3 =
      some "250001000A0014" ∧
    buildId2 (.int 250) (.int 1) (.int 10) (.int 20) "auto" 4 4 =
      some "25001000A0014" ∧
    ("250001000A0014" : String) ≠ "25001000A0014" := by decide

/-- C8 amended: on rows whose four fields are plain non-negative integers,
`test.py`'s and `test2.py`'s builders agree for every mode and width
configuration (they differ only on degraded inputs, and the third variant
differs algorithmically). -/
theorem claim8_amended : ∀ (m n l c : Nat) (mode : String) (lw cw : Nat),
    buildId1 (.int m) (.int n) (.int l) (.int c) 3 mode lw cw =
      buildId2 (.int m) (.int n) (.int l) (.int c) mode lw cw := by
  intro m n l c mode lw cw
  have hmcc : normDigits (.int m) (some 3) (some 3) = zFill 3 (pyDigits (.int m)) := by
    show (if 0 < 3 ∧ (natToDec m).length < 3 then zFill 3 (natToDec m)
        else natToDec m) = zFill 3 (natToDec m)
    by_cases hl : (natToDec m).length < 3
    · rw [if_pos ⟨by omega, hl⟩]
    · rw [if_neg fun hh => hl hh.2,
        zFill_eq_self 3 (natToDec m) (Nat.le_of_not_lt hl)]
  have hraw : normDigits (.int n) none none = natToDec n := rfl
  have hmnc :
      (if mode = "2" then zFill 2 (normDigits (.int n) none none)
       else if mode = "3" then zFill 3 (normDigits (.int n) none none)
       else
         match pyIntOfStr (normDigits (.int n) none none) with
         | some k => if 100 ≤ k then zFill 3 (natToDec k) else zFill 2 (natToDec k)
         | none => normDigits (.int n) none none) =
      mncSegment mode (pyDigits (.int n)) := by
    rw [hraw]
    show _ = mncSegment mode (natToDec n)
    unfold mncSegment
    by_cases h2 : mode = "2"
    · rw [if_pos h2, if_pos h2]
    · rw [if_neg h2, if_neg h2]
      by_cases h3 : mode = "3"
      · rw [if_pos h3, if_pos h3]
      · rw [if_neg h3, if_neg h3, pyIntOfStr_natToDec n]
        show (if 100 ≤ n then zFill 3 (natToDec n) else zFill 2 (natToDec n)) =
          if n < 100 then zFill 2 (natToDec n) else zFill 3 (natToDec n)
        by_cases hn : n < 100
        · rw [if_neg (by omega : ¬100 ≤ n), if_pos hn]
        · rw [if_pos (Nat.le_of_not_lt hn), if_neg hn]
  show some (upStr ((if (3:Nat) ≠ 0 then normDigits (.int m) (some 3) (some 3)
      else normDigits (.int m) none none) ++
      (if mode = "2" then zFill 2 (normDigits (.int n) none none)
       else if mode = "3" then zFill 3 (normDigits (.int n) none none)
       else
         match pyIntOfStr (normDigits (.int n) none none) with
         | some k => if 100 ≤ k then zFill 3 (natToDec k) else zFill 2 (natToDec k)
         | none => normDigits (.int n) none none) ++
      pyHexFmt l lw ++ pyHexFmt c cw)) =
    some (upStr (zFill 3 (pyDigits (.int m)) ++ mncSegment mode (pyDigits (.int n)) ++
      pyHexFmt l lw ++ pyHexFmt c cw))
  rw [if_pos (by decide : (3:Nat) ≠ 0), hmcc, hmnc]

/-- C9: re-normalizing a built composite identifier as text input yields the
identical string: the spreadsheet cell normalization (strip, upper-case,
remove whitespace) fixes it, and so do the digit normalizers of both
variants (including `norm_digits` at the builder's MCC width 3). -/
theorem claim9_idempotent : ∀ (mcc mnc lac ci : RawValue) (mode : String)
    (lw cw : Nat) (s : String),
    buildId2 mcc mnc lac ci mode lw cw = some s →
    valueNorm s = s ∧ pyDigits (.text s) = s ∧
    normDigits (.text s) (some 3) (some 3) = s := by
  intro mcc mnc lac ci mode lw cw s hs
  obtain ⟨t, rfl, hnw, hlen⟩ := buildId2_some_shape hs
  have hu : NoWs (upStr t).data := by
    rw [upStr_data]
    exact noWs_map_upChar hnw
  refine ⟨valueNorm_upStr hnw, ?_, ?_⟩
  · show removeWs (upStr t) = upStr t
    unfold removeWs
    rw [removeWsL_eq_self_of_noWs hu]
  · show (if 0 < 3 ∧ (removeWsL (pyStripL (upStr t).data)).length < 3
        then zFill 3 ⟨removeWsL (pyStripL (upStr t).data)⟩
        else (⟨removeWsL (pyStripL (upStr t).data)⟩ : String)) = upStr t
    rw [pyStripL_eq_self_of_noWs hu, removeWsL_eq_self_of_noWs hu]
    rw [if_neg]
    intro hh
    rw [length_eq_data] at hlen
    omega

/-- Witness for C9 at a concrete built identifier. -/
theorem claim9_witness :
    valueNorm "25001000A0014" = "25001000A0014" ∧
    pyDigits (.text "25001000A0014") = "25001000A0014" ∧
    normDigits (.text "25001000A0014") (some 3) (some 3) = "25001000A0014" :=
  claim9_idempotent (.int 250) (.int 1) (.int 10) (.int 20) "auto" 4 4
    "25001000A0014" (by decide)
